import Mathlib

/-!
Verification of the surgery-cost CSV import pipeline.

This file gives a shallow embedding, in Lean 4, of the reconciliation
pipeline of the surgery-cost repository (`src/backend/app.py`,
`src/backend/server.py`, `src/app.py`) and proves properties of it.

Modelling conventions, fixed once here:

* Python strings are modelled as `List Char`.  The whitespace class
  stripped by `str.strip()` and matched by the regex class `\s` is
  modelled by `isSpace` below, covering the whitespace characters that
  occur in this domain (ASCII whitespace and the ideographic space
  U+3000); Python additionally treats some rarer Unicode code points as
  whitespace, which are outside the modelled alphabet.  Likewise the
  regex class `\d` and `str.isdigit`-style digit runs are modelled by
  `Char.isDigit` (ASCII `0`-`9`); Python's `\d` also matches other
  Unicode decimal digits, outside the modelled alphabet.
* A pandas cell read with `dtype=str` is `Option (List Char)`: `none` is
  NaN (a missing/empty CSV field).  `.astype(str)` turns NaN into the
  literal string "nan", modelled by `pyStr`.
* `float(...)` quantities: SQLite receives `str(quantity)`.  We keep the
  parsed quantity itself (`Quantity` below) and do not model the Python
  float/str round trip; no property proved here depends on it.
* The regular expression
  `^★\s*(.*?)(?:\[(\d+(?:\.\d+)?)\])\s*([^\]]*)\s*$` of
  `parse_usage_from_remarks` is embedded by `matchStructured`.  The
  embedding is the determinisation of the backtracking search: because
  group 3 (`[^\]]*`) excludes `]`, the bracket pair consumed by group 2
  must close at the last `]` of the token, and because group 2 is all
  digits and dots it must open at the last `[` before that `]`; the
  pattern therefore matches exactly when the segment between that last
  `[` and last `]` is a numeric literal and, since `.` does not match a
  newline in Python, when no newline occurs in group 1 (the text between
  the marker, after regex-absorbed leading whitespace, and that `[`).
  The fallback pattern `^★\s*(.*?)\s*$` matches exactly when the token
  body, stripped, contains no newline.
-/

set_option maxHeartbeats 1000000

/-- Whitespace stripped by Python `str.strip()` / matched by `\s`,
restricted to the modelled alphabet. -/
def isSpace (c : Char) : Bool :=
  c == ' ' || c == '\t' || c == '\n' || c == '\r' || c == '\x0b' || c == '\x0c' || c == '　'

/-- Python `str.lstrip()`. -/
def lstrip (l : List Char) : List Char := l.dropWhile isSpace

/-- Python `str.rstrip()`. -/
def rstrip (l : List Char) : List Char := (l.reverse.dropWhile isSpace).reverse

/-- Python `str.strip()`. -/
def strip (l : List Char) : List Char := rstrip (lstrip l)

/-- `.astype(str)` on a pandas cell: NaN becomes the literal string "nan". -/
def pyStr (cell : Option (List Char)) : List Char :=
  match cell with
  | none => "nan".data
  | some s => s

/-- The delimiter class of `re.split(r"[,、，]", text)`:
ASCII comma, ideographic comma U+3001, full-width comma U+FF0C. -/
def isDelim (c : Char) : Bool := c == ',' || c == '、' || c == '，'

/-- `re.split(r"[,、，]", text)`: split at every delimiter occurrence,
keeping empty segments, exactly as `re.split` does. -/
def splitDelims : List Char → List (List Char)
  | [] => [[]]
  | c :: cs =>
    if isDelim c then [] :: splitDelims cs
    else
      match splitDelims cs with
      | p :: ps => (c :: p) :: ps
      | [] => [[c]]

/-- Split a list at the last occurrence of `c`: returns `(before, after)`
with `l = before ++ c :: after` and `c ∉ after`, or `none` if `c ∉ l`. -/
def splitLast (c : Char) : List Char → Option (List Char × List Char)
  | [] => none
  | x :: xs =>
    match splitLast c xs with
    | some (b, a) => some (x :: b, a)
    | none => if x = c then some ([], xs) else none

/-- The numeric-literal pattern `\d+(\.\d+)?`, anchored to the whole
list: a nonempty digit run, optionally followed by `.` and one more
nonempty digit run. -/
def isNumLit (l : List Char) : Bool :=
  decide (l.takeWhile Char.isDigit ≠ []) &&
    (decide (l.dropWhile Char.isDigit = []) ||
      (decide ((l.dropWhile Char.isDigit).head? = some '.') &&
        decide ((l.dropWhile Char.isDigit).tail ≠ []) &&
        (l.dropWhile Char.isDigit).tail.all Char.isDigit))

/-- Decimal value of a digit run (`int(...)` on an all-digit string). -/
def natOfDigits (l : List Char) : Nat :=
  l.foldl (fun a c => 10 * a + (c.toNat - 48)) 0

/-- The quantity stored for a usage row:
`float(qty_str) if "." in qty_str else int(qty_str)`.  A decimal literal
is kept verbatim rather than rounded through a binary float. -/
inductive Quantity where
  | qint (n : Nat)
  | qdec (lit : List Char)
deriving DecidableEq, Repr

/-- `float(qty_str) if "." in qty_str else int(qty_str)`. -/
def parseQty (num : List Char) : Quantity :=
  if '.' ∈ num then Quantity.qdec num else Quantity.qint (natOfDigits num)

/-- One row destined for the `case_usage` table
(`src/backend/app.py`, `parse_usage_from_remarks`). -/
structure UsageRow where
  case_id : Nat
  free_item_name : List Char
  quantity : Option Quantity
  unit : Option (List Char)
  memo : List Char
deriving DecidableEq, Repr

/-- Embedding of the structured regex
`^★\s*(.*?)(?:\[(\d+(?:\.\d+)?)\])\s*([^\]]*)\s*$` applied to the token
body after the marker.  Returns `(group1-with-leading-ws, numeral, tail)`
on success; see the module comment for why this determinisation is exact. -/
def matchStructured (rest : List Char) : Option (List Char × List Char × List Char) :=
  match splitLast ']' rest with
  | none => none
  | some (front, tail) =>
    match splitLast '[' front with
    | none => none
    | some (pre, num) =>
      if isNumLit num ∧ '\n' ∉ lstrip pre then some (pre, num, tail) else none

/-- `(m.group(3) or "").strip() or None`. -/
def stripToOption (l : List Char) : Option (List Char) :=
  match strip l with
  | [] => none
  | u => some u

/-- Body of the token loop of `parse_usage_from_remarks`
(`src/backend/app.py` lines 174-221): strip the segment, demand the `★`
marker, try the structured pattern, else the fallback pattern. -/
def processPart (cid : Nat) (s : List Char) : List UsageRow :=
  match strip s with
  | [] => []
  | c :: rest =>
    if c = '★' then
      match matchStructured rest with
      | some (pre, num, tail) =>
        if strip ((strip pre).takeWhile (fun c2 => c2 != '[')) = [] then []
        else [{ case_id := cid,
                free_item_name := strip ((strip pre).takeWhile (fun c2 => c2 != '[')),
                quantity := some (parseQty num), unit := stripToOption tail,
                memo := '★' :: rest }]
      | none =>
        if '\n' ∈ strip rest then []
        else if strip rest = [] then []
        else [{ case_id := cid, free_item_name := strip rest, quantity := none,
                unit := none, memo := '★' :: rest }]
    else []

/-- `parse_usage_from_remarks(internal_case_id, remarks)` of
`src/backend/app.py` lines 156-223.  `none` models `None`/NaN remarks. -/
def parse_usage_from_remarks (cid : Nat) (remarks : Option (List Char)) : List UsageRow :=
  match remarks with
  | none => []
  | some text => (splitDelims text).flatMap (processPart cid)

/-- `parse_int_safe` of `src/backend/app.py` lines 120-127 /
`src/app.py` lines 82-94: `re.search(r"\d+", s)` finds the first maximal
digit run; `firstDigitRun` is that search. -/
def firstDigitRun : List Char → Option (List Char)
  | [] => none
  | c :: cs =>
    if c.isDigit then some (List.takeWhile Char.isDigit (c :: cs))
    else firstDigitRun cs

/-- `parse_int_safe` of `src/backend/app.py` lines 120-127. -/
def parse_int_safe (val : Option (List Char)) : Option Nat :=
  match val with
  | none => none
  | some v =>
    if strip v = [] then none
    else
      match firstDigitRun (strip v) with
      | none => none
      | some run => some (natOfDigits run)

/-- A parsed calendar date. -/
structure DateVal where
  year : Nat
  month : Nat
  day : Nat
deriving DecidableEq, Repr

/-- The error message raised by `to_iso_date` on an unparseable date:
`f"手術実施日の形式が不正です: {s}"`.  Note it embeds only the offending
cell value; no row information is available to `to_iso_date`. -/
def dateErrMsg (s : List Char) : List Char :=
  "手術実施日の形式が不正です: ".data ++ s

/-- `to_iso_date` of `src/backend/app.py` lines 108-117.  The pandas
heuristic parser `pd.to_datetime(s, errors="coerce")` is abstracted as
the parameter `dp` (returning `none` for NaT); the `strftime("%Y-%m-%d")`
formatting of a successfully parsed date is elided — the stored value is
the parsed date itself. -/
def to_iso_date (dp : List Char → Option DateVal) (val : Option (List Char)) :
    Except (List Char) (Option DateVal) :=
  match val with
  | none => Except.ok none
  | some v =>
    if strip v = [] then Except.ok none
    else
      match dp (strip v) with
      | none => Except.error (dateErrMsg (strip v))
      | some d => Except.ok (some d)

/-- One raw CSV row after header normalisation: the nine required
columns, each an `Option (List Char)` cell (`none` = NaN/missing). -/
structure RawRow where
  cell_case_id : Option (List Char)
  cell_patient_id : Option (List Char)
  cell_patient_name : Option (List Char)
  cell_surg_date : Option (List Char)
  cell_age : Option (List Char)
  cell_dept : Option (List Char)
  cell_surg_procedure : Option (List Char)
  cell_disease : Option (List Char)
  cell_remarks : Option (List Char)
deriving DecidableEq, Repr

/-- One candidate case record as assembled by `build_surg_cases`
(`src/backend/app.py` lines 133-143). -/
structure CaseRow where
  ext_case_id : List Char
  patient_id : Option Nat
  patient_name : List Char
  surg_date : Option DateVal
  age : Option Nat
  dept : List Char
  surg_procedure : List Char
  disease : List Char
  remarks : List Char
deriving DecidableEq, Repr

/-- The per-row content of the column-wise coercions of
`build_surg_cases` lines 134-143.  Only the date coercion can fail; the
column-wise pandas `apply` and this row-wise form agree both on the
success value and on which error is raised first (top row first). -/
def coerceRow (dp : List Char → Option DateVal) (raw : RawRow) :
    Except (List Char) CaseRow :=
  match to_iso_date dp raw.cell_surg_date with
  | Except.error e => Except.error e
  | Except.ok d =>
    Except.ok
      { ext_case_id := strip (pyStr raw.cell_case_id)
        patient_id := parse_int_safe raw.cell_patient_id
        patient_name := strip (pyStr raw.cell_patient_name)
        surg_date := d
        age := parse_int_safe raw.cell_age
        dept := strip (pyStr raw.cell_dept)
        surg_procedure := strip (pyStr raw.cell_surg_procedure)
        disease := strip (pyStr raw.cell_disease)
        remarks := strip (pyStr raw.cell_remarks) }

/-- All rows coerced, stopping at the first failing row. -/
def coerceRows (dp : List Char → Option DateVal) : List RawRow → Except (List Char) (List CaseRow)
  | [] => Except.ok []
  | raw :: rest =>
    match coerceRow dp raw with
    | Except.error e => Except.error e
    | Except.ok r =>
      match coerceRows dp rest with
      | Except.error e => Except.error e
      | Except.ok rs => Except.ok (r :: rs)

/-- `drop_duplicates(subset=["ext_case_id"], keep="first")`: keep the
first row bearing each external id, in order; `seen` is the set of ids
already kept. -/
def dedupGo (seen : List (List Char)) : List CaseRow → List CaseRow
  | [] => []
  | r :: rs =>
    if r.ext_case_id ∈ seen then dedupGo seen rs
    else r :: dedupGo (r.ext_case_id :: seen) rs

/-- `drop_duplicates` keep-first, from an empty seen-set. -/
def dedupFirst (l : List CaseRow) : List CaseRow := dedupGo [] l

/-- `build_surg_cases` of `src/backend/app.py` lines 133-150: coerce all
columns, drop rows with empty external id, dedup keep-first. -/
def build_surg_cases (dp : List Char → Option DateVal) (rows : List RawRow) :
    Except (List Char) (List CaseRow) :=
  match coerceRows dp rows with
  | Except.error e => Except.error e
  | Except.ok l => Except.ok (dedupFirst (l.filter (fun r => r.ext_case_id != [])))

/-- One persisted `surg_cases` row (schema of `src/backend/app.py`):
surrogate `case_id` plus external id and the mutable fields.  This
variant of the schema has no remarks column. -/
structure DbCase where
  case_id : Nat
  ext_case_id : List Char
  patient_id : Option Nat
  patient_name : List Char
  surg_date : Option DateVal
  age : Option Nat
  dept : List Char
  surg_procedure : List Char
  disease : List Char
deriving DecidableEq, Repr

/-- The persistent store: `surg_cases`, `case_usage`, and the
AUTOINCREMENT counter supplying the next surrogate key. -/
structure Store where
  cases : List DbCase
  usage : List UsageRow
  nextId : Nat
deriving DecidableEq, Repr

/-- The `UPDATE surg_cases SET ... WHERE case_id = ?` of
`src/backend/app.py` lines 266-288: all mutable fields overwritten,
`case_id` and `ext_case_id` untouched. -/
def updateFields (c : DbCase) (r : CaseRow) : DbCase :=
  { c with patient_id := r.patient_id, patient_name := r.patient_name,
           surg_date := r.surg_date, age := r.age, dept := r.dept,
           surg_procedure := r.surg_procedure, disease := r.disease }

/-- The `INSERT INTO surg_cases ...` of lines 290-307 with a fresh
surrogate key. -/
def mkCase (cid : Nat) (r : CaseRow) : DbCase :=
  { case_id := cid, ext_case_id := r.ext_case_id, patient_id := r.patient_id,
    patient_name := r.patient_name, surg_date := r.surg_date, age := r.age,
    dept := r.dept, surg_procedure := r.surg_procedure, disease := r.disease }

/-- One iteration of the reconciliation loop of `import_csv`
(`src/backend/app.py` lines 258-330): look the case up by external id,
update in place or insert with a fresh id, then delete that case's usage
rows and insert the freshly tokenized set. -/
def importStep (st : Store) (r : CaseRow) : Store :=
  match st.cases.find? (fun c => c.ext_case_id == r.ext_case_id) with
  | some c =>
    { cases := st.cases.map (fun x => if x.case_id == c.case_id then updateFields x r else x)
      usage := st.usage.filter (fun u => u.case_id != c.case_id) ++
        parse_usage_from_remarks c.case_id (some r.remarks)
      nextId := st.nextId }
  | none =>
    { cases := st.cases ++ [mkCase st.nextId r]
      usage := st.usage.filter (fun u => u.case_id != st.nextId) ++
        parse_usage_from_remarks st.nextId (some r.remarks)
      nextId := st.nextId + 1 }

/-- The internal case id that `importStep` reads or mints for a row:
the id found by external-id lookup, or the fresh AUTOINCREMENT value. -/
def assignedId (st : Store) (r : CaseRow) : Nat :=
  match st.cases.find? (fun c => c.ext_case_id == r.ext_case_id) with
  | some c => c.case_id
  | none => st.nextId

/-- `import_csv` of `src/backend/app.py` lines 229-354, from validated
raw rows on: build the candidate cases, then run the reconciliation loop
inside one transaction.  An error anywhere surfaces as `Except.error`
and, per `runImport` below, leaves the store untouched (the
`conn.rollback()` of lines 334-336). -/
def import_csv (dp : List Char → Option DateVal) (rows : List RawRow) (st : Store) :
    Except (List Char) Store :=
  match build_surg_cases dp rows with
  | Except.error e => Except.error e
  | Except.ok cs => Except.ok (cs.foldl importStep st)

/-- The store after one import request: the new state on commit, the old
state on rollback. -/
def runImport (dp : List Char → Option DateVal) (rows : List RawRow) (st : Store) : Store :=
  match import_csv dp rows st with
  | Except.ok st2 => st2
  | Except.error _ => st

/-- `SELECT case_id FROM surg_cases WHERE ext_case_id = ?` (first match;
the schema's unique index makes it the only match on well-formed
stores). -/
def lookupExtId (st : Store) (e : List Char) : Option Nat :=
  (st.cases.find? (fun c => c.ext_case_id == e)).map (fun c => c.case_id)

/-- The usage rows owned by one internal case id. -/
def usageOf (st : Store) (cid : Nat) : List UsageRow :=
  st.usage.filter (fun u => u.case_id == cid)

/-- Store well-formedness: surrogate keys below the counter and pairwise
distinct, and external ids pairwise distinct (the unique index
`idx_surg_cases_ext_case_id` of `ensure_schema`). -/
def Store.wf (st : Store) : Prop :=
  (∀ c ∈ st.cases, c.case_id < st.nextId) ∧
    st.cases.Pairwise (fun a b => a.case_id ≠ b.case_id) ∧
    st.cases.Pairwise (fun a b => a.ext_case_id ≠ b.ext_case_id)

/-- The encodings tried by `read_csv_to_dataframe` (`src/app.py` lines
97-116), in order. -/
inductive Enc where
  | cp932
  | utf8sig
  | utf8
deriving DecidableEq, Repr

/-- `read_csv_to_dataframe` of `src/app.py` lines 97-116, up to the
decoded text: reject an empty buffer, then try CP932, UTF-8-SIG and
UTF-8 in that order and keep the first decoding that succeeds.  Actual
byte-level decoding is abstracted as the parameter `dec` (`none` models
`UnicodeDecodeError`); the subsequent `pd.read_csv` parse is outside
this model. -/
def read_csv_to_dataframe (dec : Enc → List Nat → Option (List Char)) (content : List Nat) :
    Except (List Char) (List Char) :=
  if content = [] then Except.error "ファイルが空です。".data
  else
    match dec Enc.cp932 content with
    | some t => Except.ok t
    | none =>
      match dec Enc.utf8sig content with
      | some t => Except.ok t
      | none =>
        match dec Enc.utf8 content with
        | some t => Except.ok t
        | none => Except.error "CSV の文字コードを判別できませんでした".data

/-- A date parser that accepts nothing: enough for fixtures whose date
cells are missing (missing cells never reach the parser). -/
def dp0 : List Char → Option DateVal := fun _ => none

/-- A date parser accepting exactly one fixed literal. -/
def dp1 : List Char → Option DateVal :=
  fun s => if s = "2025-01-02".data then some ⟨2025, 1, 2⟩ else none

/-- The empty store (fresh database). -/
def st0 : Store := { cases := [], usage := [], nextId := 1 }

/-- Fixture row: external id A1, remarks with two marker tokens. -/
def rawA : RawRow :=
  { cell_case_id := some "A1".data, cell_patient_id := some "7".data,
    cell_patient_name := some "山田".data, cell_surg_date := none,
    cell_age := some "約20歳".data, cell_dept := some "外科".data,
    cell_surg_procedure := some "虫垂切除".data, cell_disease := some "虫垂炎".data,
    cell_remarks := some "★ガーゼ[2]枚,★消毒".data }

/-- Fixture row: external id B2. -/
def rawB : RawRow :=
  { cell_case_id := some "B2".data, cell_patient_id := some "8".data,
    cell_patient_name := some "佐藤".data, cell_surg_date := some "2025-01-02".data,
    cell_age := some "61".data, cell_dept := some "内科".data,
    cell_surg_procedure := some "胆摘".data, cell_disease := some "胆石".data,
    cell_remarks := some "★クリップ[1]個".data }

/-- Fixture row: duplicate external id A1 with different field values. -/
def rawDup : RawRow :=
  { cell_case_id := some " A1 ".data, cell_patient_id := some "9".data,
    cell_patient_name := some "別人".data, cell_surg_date := none,
    cell_age := none, cell_dept := some "眼科".data,
    cell_surg_procedure := some "別術式".data, cell_disease := some "別病名".data,
    cell_remarks := some "★別物[9]本".data }

/-- Fixture row: whitespace-only external id (dropped by the builder). -/
def rawEmptyId : RawRow :=
  { cell_case_id := some "  ".data, cell_patient_id := none,
    cell_patient_name := none, cell_surg_date := none,
    cell_age := none, cell_dept := none,
    cell_surg_procedure := none, cell_disease := none,
    cell_remarks := some "★捨てられる[1]枚".data }

/-- Fixture row: unparseable surgery date. -/
def rawBad : RawRow :=
  { cell_case_id := some "C3".data, cell_patient_id := some "10".data,
    cell_patient_name := some "高橋".data, cell_surg_date := some "令和なんとか年".data,
    cell_age := some "50".data, cell_dept := some "外科".data,
    cell_surg_procedure := some "術式".data, cell_disease := some "病名".data,
    cell_remarks := none }

/-- A decoding oracle for which only UTF-8-SIG succeeds. -/
def decFix : Enc → List Nat → Option (List Char) :=
  fun e _ =>
    match e with
    | Enc.utf8sig => some "ヘッダ行".data
    | _ => none

/-- The coerced form of `rawA` (first kept row of the good batch). -/
def rGoodA : CaseRow :=
  { ext_case_id := "A1".data, patient_id := some 7, patient_name := "山田".data,
    surg_date := none, age := some 20, dept := "外科".data,
    surg_procedure := "虫垂切除".data, disease := "虫垂炎".data,
    remarks := "★ガーゼ[2]枚,★消毒".data }

/-- A good batch exercising dedup, empty-id dropping and the tokenizer. -/
def rowsGood : List RawRow := [rawA, rawDup, rawEmptyId, rawB]

/-- The builder output on `rowsGood`. -/
def csGood : List CaseRow :=
  match build_surg_cases dp1 rowsGood with
  | Except.ok l => l
  | Except.error _ => []

/-- The coerced (pre-filter, pre-dedup) rows of `rowsGood`. -/
def coercedGood : List CaseRow :=
  match coerceRows dp1 rowsGood with
  | Except.ok l => l
  | Except.error _ => []

/-- Store after importing `rowsGood` into the empty store. -/
def stG1 : Store := runImport dp1 rowsGood st0

/-- Store after importing `rowsGood` twice. -/
def stG2 : Store := runImport dp1 rowsGood stG1

/-- A batch whose second row has the unparseable date. -/
def rowsBadLast : List RawRow := [rawA, rawBad]

/-- A batch whose first row has the unparseable date. -/
def rowsBadFirst : List RawRow := [rawBad, rawB]

-- Concrete behaviour checks mirroring the worked examples of the spec.
example : parse_usage_from_remarks 1 (some "★サージセル[2]枚".data) =
    [{ case_id := 1, free_item_name := "サージセル".data,
       quantity := some (Quantity.qint 2), unit := some "枚".data,
       memo := "★サージセル[2]枚".data }] := by decide
example : parse_usage_from_remarks 1 (some "★洗浄[生理食塩水250ml][1]本".data) =
    [{ case_id := 1, free_item_name := "洗浄".data,
       quantity := some (Quantity.qint 1), unit := some "本".data,
       memo := "★洗浄[生理食塩水250ml][1]本".data }] := by decide
example : parse_usage_from_remarks 1 (some "★消毒".data) =
    [{ case_id := 1, free_item_name := "消毒".data,
       quantity := none, unit := none, memo := "★消毒".data }] := by decide
example : parse_usage_from_remarks 1 (some "特記事項なし".data) = [] := by decide
example : parse_usage_from_remarks 1 (some "★ガーゼ[3]枚,★クリップ[1]個".data) =
    [{ case_id := 1, free_item_name := "ガーゼ".data,
       quantity := some (Quantity.qint 3), unit := some "枚".data,
       memo := "★ガーゼ[3]枚".data },
     { case_id := 1, free_item_name := "クリップ".data,
       quantity := some (Quantity.qint 1), unit := some "個".data,
       memo := "★クリップ[1]個".data }] := by decide
example : parse_usage_from_remarks 1 (some "★点滴[2.5]袋".data) =
    [{ case_id := 1, free_item_name := "点滴".data,
       quantity := some (Quantity.qdec "2.5".data), unit := some "袋".data,
       memo := "★点滴[2.5]袋".data }] := by decide
example : parse_usage_from_remarks 1 (some "★a\nb[2]".data) = [] := by decide
example : parse_usage_from_remarks 1 (some "★a\nb".data) = [] := by decide
example : parse_int_safe (some "約20歳".data) = some 20 := by decide
example : parse_int_safe (some "不明".data) = none := by decide
example : parse_int_safe (some "".data) = none := by decide
example : (csGood.map (fun r => r.ext_case_id)) = ["A1".data, "B2".data] := by decide
example : build_surg_cases dp1 rowsGood = Except.ok csGood := rfl
example : import_csv dp1 rowsGood st0 = Except.ok stG1 := rfl
example : (stG1.cases.map (fun c => (c.case_id, c.ext_case_id))) =
    [(1, "A1".data), (2, "B2".data)] := by decide
example : usageOf stG1 1 = parse_usage_from_remarks 1 (some "★ガーゼ[2]枚,★消毒".data) := by decide
example : stG2 = stG1 := by decide
example : import_csv dp1 rowsBadFirst st0 = Except.error (dateErrMsg "令和なんとか年".data) := rfl
example : import_csv dp1 rowsBadLast st0 = Except.error (dateErrMsg "令和なんとか年".data) := rfl

/-! ### List and string helper lemmas -/

theorem takeWhile_all_append {α : Type} {p : α → Bool} :
    ∀ (a b : List α), (∀ c ∈ a, p c = true) →
      (a ++ b).takeWhile p = a ++ b.takeWhile p := by
  intro a
  induction a with
  | nil => intro b _; simp
  | cons x xs ih =>
    intro b h
    have hx : p x = true := h x (List.mem_cons_self x xs)
    simp only [List.cons_append, List.takeWhile_cons, hx, if_true]
    rw [ih b (fun c hc => h c (List.mem_cons_of_mem x hc))]

theorem dropWhile_all_append {α : Type} {p : α → Bool} :
    ∀ (a b : List α), (∀ c ∈ a, p c = true) →
      (a ++ b).dropWhile p = b.dropWhile p := by
  intro a
  induction a with
  | nil => intro b _; simp
  | cons x xs ih =>
    intro b h
    have hx : p x = true := h x (List.mem_cons_self x xs)
    simp only [List.cons_append, List.dropWhile_cons, hx, if_true]
    exact ih b (fun c hc => h c (List.mem_cons_of_mem x hc))

theorem takeWhile_stop {α : Type} {p : α → Bool} {x : α} (hx : p x = false) :
    ∀ (a b : List α), (a ++ x :: b).takeWhile p = a.takeWhile p := by
  intro a
  induction a with
  | nil => intro b; simp [List.takeWhile_cons, hx]
  | cons y ys ih =>
    intro b
    by_cases hy : p y = true
    · simp only [List.cons_append, List.takeWhile_cons, hy, if_true]
      rw [ih b]
    · have hy2 : p y = false := Bool.eq_false_iff.2 hy
      simp [List.takeWhile_cons, hy2]

theorem dropWhile_ne_nil_append {α : Type} {p : α → Bool} :
    ∀ (a b : List α), a.dropWhile p ≠ [] →
      (a ++ b).dropWhile p = a.dropWhile p ++ b := by
  intro a
  induction a with
  | nil => intro b h; exact absurd rfl h
  | cons x xs ih =>
    intro b h
    by_cases hx : p x = true
    · simp only [List.dropWhile_cons, hx, if_true] at h ⊢
      simp only [List.cons_append, List.dropWhile_cons, hx, if_true]
      exact ih b h
    · have hx2 : p x = false := Bool.eq_false_iff.2 hx
      simp [List.dropWhile_cons, hx2]

theorem takeWhile_ne_self_append {α : Type} {p : α → Bool} :
    ∀ (a b : List α), a.takeWhile p ≠ a →
      (a ++ b).takeWhile p = a.takeWhile p := by
  intro a
  induction a with
  | nil => intro b h; exact absurd rfl h
  | cons x xs ih =>
    intro b h
    by_cases hx : p x = true
    · simp only [List.takeWhile_cons, hx, if_true] at h ⊢
      have hxs : xs.takeWhile p ≠ xs := fun he => h (by rw [he])
      simp only [List.cons_append, List.takeWhile_cons, hx, if_true]
      rw [ih b hxs]
    · have hx2 : p x = false := Bool.eq_false_iff.2 hx
      simp [List.takeWhile_cons, hx2]

theorem mem_lstrip {c : Char} {l : List Char} (h : c ∈ lstrip l) : c ∈ l :=
  (List.dropWhile_sublist _).mem h

theorem mem_rstrip {c : Char} {l : List Char} (h : c ∈ rstrip l) : c ∈ l := by
  unfold rstrip at h
  rw [List.mem_reverse] at h
  have := (List.dropWhile_sublist _).mem h
  rwa [List.mem_reverse] at this

theorem mem_strip {c : Char} {l : List Char} (h : c ∈ strip l) : c ∈ l :=
  mem_lstrip (mem_rstrip h)

theorem lstrip_ws_front {w t : List Char} (hw : ∀ c ∈ w, isSpace c = true) :
    lstrip (w ++ t) = lstrip t := dropWhile_all_append w t hw

theorem strip_ws_front {w t : List Char} (hw : ∀ c ∈ w, isSpace c = true) :
    strip (w ++ t) = strip t := by
  unfold strip
  rw [lstrip_ws_front hw]

theorem rstrip_ws_suffix {w t : List Char} (hw : ∀ c ∈ w, isSpace c = true) :
    rstrip (t ++ w) = rstrip t := by
  unfold rstrip
  rw [List.reverse_append]
  rw [dropWhile_all_append w.reverse t.reverse
    (fun c hc => hw c (List.mem_reverse.1 hc))]

theorem rstrip_all_ws {w : List Char} (hw : ∀ c ∈ w, isSpace c = true) :
    rstrip w = [] := by
  have := rstrip_ws_suffix (t := []) hw
  simpa using this

theorem strip_ws_suffix {w t : List Char} (hw : ∀ c ∈ w, isSpace c = true) :
    strip (t ++ w) = strip t := by
  unfold strip
  by_cases hnil : lstrip t = []
  · have hallt : ∀ c ∈ t, isSpace c = true := by
      intro c hc
      by_contra hcs
      have : t.dropWhile isSpace ≠ [] := by
        intro hd
        have hsub : t.takeWhile isSpace = t := by
          have := List.takeWhile_append_dropWhile isSpace t
          rw [hd, List.append_nil] at this
          exact this
        have := List.mem_takeWhile_imp (hsub ▸ hc)
        exact hcs this
      exact this hnil
    have h1 : lstrip (t ++ w) = lstrip w := lstrip_ws_front hallt
    rw [h1, hnil]
    have h2 : rstrip (lstrip w) = [] := by
      apply rstrip_all_ws
      intro c hc
      exact hw c (mem_lstrip hc)
    rw [h2]
    simp [rstrip]
  · have h3 : lstrip (t ++ w) = lstrip t ++ w := by
      unfold lstrip at hnil ⊢
      exact dropWhile_ne_nil_append t w hnil
    rw [h3]
    exact rstrip_ws_suffix hw

theorem isSpace_bne_lbrack {c : Char} (h : isSpace c = true) : (c != '[') = true := by
  unfold isSpace at h
  simp only [Bool.or_eq_true, beq_iff_eq] at h
  rcases h with ((((((h | h) | h) | h) | h) | h) | h) <;> subst h <;> decide

theorem takeWhile_strip_rstrip (u : List Char) :
    strip ((rstrip u).takeWhile (fun c => c != '[')) =
      strip (u.takeWhile (fun c => c != '[')) := by
  have hsplit : u = rstrip u ++ (u.reverse.takeWhile isSpace).reverse := by
    unfold rstrip
    conv_lhs => rw [← List.reverse_reverse u,
      ← List.takeWhile_append_dropWhile isSpace u.reverse]
    rw [List.reverse_append]
  have hw2 : ∀ c ∈ (u.reverse.takeWhile isSpace).reverse, isSpace c = true := by
    intro c hc
    rw [List.mem_reverse] at hc
    exact List.mem_takeWhile_imp hc
  by_cases hta : (rstrip u).takeWhile (fun c => c != '[') = rstrip u
  · have hall : ∀ c ∈ rstrip u, (c != '[') = true := List.takeWhile_eq_self_iff.1 hta
    have h1 : u.takeWhile (fun c => c != '[') =
        rstrip u ++ ((u.reverse.takeWhile isSpace).reverse.takeWhile (fun c => c != '[')) := by
      conv_lhs => rw [hsplit]
      exact takeWhile_all_append _ _ hall
    have hws : ∀ c ∈ ((u.reverse.takeWhile isSpace).reverse.takeWhile (fun c => c != '[')),
        isSpace c = true :=
      fun c hc => hw2 c ((List.takeWhile_sublist _).mem hc)
    rw [hta, h1]
    exact (strip_ws_suffix hws).symm
  · have h2 : u.takeWhile (fun c => c != '[') = (rstrip u).takeWhile (fun c => c != '[') := by
      conv_lhs => rw [hsplit]
      exact takeWhile_ne_self_append _ _ hta
    rw [h2]

theorem item_bridge (pre : List Char) :
    strip ((strip pre).takeWhile (fun c => c != '[')) =
      strip (pre.takeWhile (fun c => c != '[')) := by
  have hwA : ∀ c ∈ pre.takeWhile isSpace, isSpace c = true :=
    fun c hc => List.mem_takeWhile_imp hc
  have hA : pre.takeWhile (fun c => c != '[') =
      pre.takeWhile isSpace ++ (lstrip pre).takeWhile (fun c => c != '[') := by
    conv_lhs => rw [← List.takeWhile_append_dropWhile isSpace pre]
    exact takeWhile_all_append _ _ (fun c hc => isSpace_bne_lbrack (hwA c hc))
  have hA2 : strip (pre.takeWhile (fun c => c != '[')) =
      strip ((lstrip pre).takeWhile (fun c => c != '[')) := by
    rw [hA]
    exact strip_ws_front hwA
  calc strip ((strip pre).takeWhile (fun c => c != '['))
      = strip ((rstrip (lstrip pre)).takeWhile (fun c => c != '[')) := rfl
    _ = strip ((lstrip pre).takeWhile (fun c => c != '[')) := takeWhile_strip_rstrip (lstrip pre)
    _ = strip (pre.takeWhile (fun c => c != '[')) := hA2.symm

/-! ### splitLast lemmas -/

theorem splitLast_none_of_not_mem {c : Char} :
    ∀ {l : List Char}, c ∉ l → splitLast c l = none := by
  intro l
  induction l with
  | nil => intro _; rfl
  | cons x xs ih =>
    intro h
    have hxs : c ∉ xs := fun hc => h (List.mem_cons_of_mem x hc)
    have hx : x ≠ c := fun he => h (he ▸ List.mem_cons_self x xs)
    simp [splitLast, ih hxs, hx]

theorem not_mem_of_splitLast_none {c : Char} :
    ∀ {l : List Char}, splitLast c l = none → c ∉ l := by
  intro l
  induction l with
  | nil => intro _ h; cases h
  | cons x xs ih =>
    intro h
    simp only [splitLast] at h
    cases h2 : splitLast c xs with
    | some ba => rw [h2] at h; cases h
    | none =>
      rw [h2] at h
      by_cases hx : x = c
      · rw [if_pos hx] at h; cases h
      · intro hmem
        rcases List.mem_cons.1 hmem with he | hm
        · exact hx he.symm
        · exact ih h2 hm

theorem splitLast_sound {c : Char} :
    ∀ {l b a : List Char}, splitLast c l = some (b, a) →
      l = b ++ c :: a ∧ c ∉ a := by
  intro l
  induction l with
  | nil => intro b a h; cases h
  | cons x xs ih =>
    intro b a h
    simp only [splitLast] at h
    cases h2 : splitLast c xs with
    | some ba =>
      rw [h2] at h
      obtain ⟨b2, a2⟩ := ba
      injection h with h3
      have h4 := Prod.mk.injEq .. ▸ h3
      have hb : b = x :: b2 := (congrArg Prod.fst h3).symm
      have ha : a = a2 := (congrArg Prod.snd h3).symm
      subst hb; subst ha
      obtain ⟨hl, hna⟩ := ih h2
      exact ⟨by rw [List.cons_append, ← hl], hna⟩
    | none =>
      rw [h2] at h
      by_cases hx : x = c
      · rw [if_pos hx] at h
        injection h with h3
        have hb : b = [] := (congrArg Prod.fst h3).symm
        have ha : a = xs := (congrArg Prod.snd h3).symm
        subst hb; subst ha
        exact ⟨by rw [hx]; rfl, not_mem_of_splitLast_none h2⟩
      · rw [if_neg hx] at h; cases h

theorem splitLast_complete {c : Char} :
    ∀ (b a l : List Char), l = b ++ c :: a → c ∉ a → splitLast c l = some (b, a) := by
  intro b
  induction b with
  | nil =>
    intro a l hl hna
    subst hl
    simp [splitLast, splitLast_none_of_not_mem hna]
  | cons x b2 ih =>
    intro a l hl hna
    subst hl
    have hrec : splitLast c (b2 ++ c :: a) = some (b2, a) := ih a _ rfl hna
    show splitLast c ((x :: b2) ++ c :: a) = some (x :: b2, a)
    rw [List.cons_append]
    simp only [splitLast, hrec]

/-! ### isNumLit and matchStructured lemmas -/

theorem isNumLit_chars {l : List Char} (h : isNumLit l = true) :
    ∀ c ∈ l, c.isDigit = true ∨ c = '.' := by
  intro c hc
  unfold isNumLit at h
  simp only [Bool.and_eq_true, Bool.or_eq_true, decide_eq_true_eq,
    List.all_eq_true] at h
  obtain ⟨-, h2⟩ := h
  rw [← List.takeWhile_append_dropWhile Char.isDigit l, List.mem_append] at hc
  rcases hc with hc | hc
  · exact Or.inl (List.mem_takeWhile_imp hc)
  · rcases h2 with h2 | ⟨⟨hhd, -⟩, hall⟩
    · rw [h2] at hc; cases hc
    · cases hd : l.dropWhile Char.isDigit with
      | nil => rw [hd] at hc; cases hc
      | cons d fs =>
        rw [hd] at hc hhd hall
        simp only [List.head?_cons, Option.some.injEq] at hhd
        rcases List.mem_cons.1 hc with he | hm
        · exact Or.inr (he ▸ hhd)
        · exact Or.inl (hall c hm)

theorem not_lbrack_mem_numLit {num : List Char} (h : isNumLit num = true) :
    '[' ∉ num := by
  intro hm
  rcases isNumLit_chars h '[' hm with hd | hd <;> cases hd

theorem not_rbrack_mem_numLit {num : List Char} (h : isNumLit num = true) :
    ']' ∉ num := by
  intro hm
  rcases isNumLit_chars h ']' hm with hd | hd <;> cases hd

theorem matchStructured_sound {rest pre num tail : List Char}
    (h : matchStructured rest = some (pre, num, tail)) :
    rest = pre ++ '[' :: (num ++ ']' :: tail) ∧ isNumLit num = true ∧
      ']' ∉ tail ∧ '\n' ∉ lstrip pre := by
  unfold matchStructured at h
  cases h1 : splitLast ']' rest with
  | none =>
    simp only [h1] at h
    cases h
  | some fa =>
    obtain ⟨front, tl⟩ := fa
    simp only [h1] at h
    cases h2 : splitLast '[' front with
    | none =>
      simp only [h2] at h
      cases h
    | some pn =>
      obtain ⟨p2, n2⟩ := pn
      simp only [h2] at h
      by_cases hcond : isNumLit n2 = true ∧ '\n' ∉ lstrip p2
      · rw [if_pos hcond] at h
        simp only [Option.some.injEq, Prod.mk.injEq] at h
        obtain ⟨hp, hn, ht⟩ := h
        subst hp; subst hn; subst ht
        obtain ⟨hr1, hna1⟩ := splitLast_sound h1
        obtain ⟨hr2, -⟩ := splitLast_sound h2
        refine ⟨?_, hcond.1, hna1, hcond.2⟩
        rw [hr1, hr2, List.append_assoc, List.cons_append]
      · rw [if_neg hcond] at h
        cases h

theorem matchStructured_complete {rest pre num tail : List Char}
    (hr : rest = pre ++ '[' :: (num ++ ']' :: tail))
    (hnum : isNumLit num = true) (htail : ']' ∉ tail)
    (hnl : '\n' ∉ lstrip pre) :
    matchStructured rest = some (pre, num, tail) := by
  have hr2 : rest = (pre ++ '[' :: num) ++ ']' :: tail := by
    rw [hr, List.append_assoc, List.cons_append]
  have h1 : splitLast ']' rest = some (pre ++ '[' :: num, tail) :=
    splitLast_complete _ _ _ hr2 htail
  have h2 : splitLast '[' (pre ++ '[' :: num) = some (pre, num) :=
    splitLast_complete _ _ _ rfl (not_lbrack_mem_numLit hnum)
  unfold matchStructured
  simp only [h1, h2]
  rw [if_pos ⟨hnum, hnl⟩]

/-! ### Tokenizer-level claim support -/

theorem no_lbrack_no_decomp {rest : List Char} (h : '[' ∉ rest) :
    ¬ ∃ pre num tail, rest = pre ++ '[' :: (num ++ ']' :: tail) ∧
      isNumLit num = true ∧ ']' ∉ tail := by
  rintro ⟨pre, num, tail, hd, -, -⟩
  apply h
  rw [hd]
  simp

/-- C1 (amended): a marker token whose final square-bracket group is a
numeric literal, and which has no newline between the marker and that
bracket group, yields exactly one usage entry with item name the trimmed
text before the first `[`, the numeral as quantity, the trimmed text
after the bracket group as unit (absent if empty) and the original token
as memo — or no entry at all if that item name is empty. -/
theorem c1_structured_token (cid : Nat) (p pre num tail : List Char)
    (hp : p = '★' :: (pre ++ '[' :: (num ++ ']' :: tail)))
    (hstrip : strip p = p)
    (hnum : isNumLit num = true)
    (htail : ']' ∉ tail)
    (hnl : '\n' ∉ lstrip pre) :
    processPart cid p =
      if strip (pre.takeWhile (fun c => c != '[')) = [] then []
      else [{ case_id := cid,
              free_item_name := strip (pre.takeWhile (fun c => c != '[')),
              quantity := some (parseQty num),
              unit := stripToOption tail,
              memo := p }] := by
  have hm : matchStructured (pre ++ '[' :: (num ++ ']' :: tail)) = some (pre, num, tail) :=
    matchStructured_complete rfl hnum htail hnl
  subst hp
  unfold processPart
  rw [hstrip]
  simp only [hm, reduceIte]
  rw [item_bridge pre]

/-- Witness for C1: the spec example `★サージセル[2]枚`. -/
theorem c1_structured_token_witness :
    processPart 3 "★サージセル[2]枚".data =
      (if strip ("サージセル".data.takeWhile (fun c => c != '[')) = [] then []
       else [{ case_id := 3,
               free_item_name := strip ("サージセル".data.takeWhile (fun c => c != '[')),
               quantity := some (parseQty "2".data),
               unit := stripToOption "枚".data,
               memo := "★サージセル[2]枚".data }]) :=
  c1_structured_token 3 "★サージセル[2]枚".data "サージセル".data "2".data "枚".data
    (by decide) (by decide) (by decide) (by decide) (by decide)

/-- C1 counterexample: the token `★a\nb[2]` satisfies every hypothesis of
claim C1 as stated — it begins with the marker, its final bracket group
is the numeric literal `2`, and the text before the first `[`, trimmed,
is the non-empty `a\nb` — so the claim demands one usage entry; the code
emits none, because `.` in the Python pattern does not match the newline
and the fallback pattern fails on it too. -/
theorem c1_counterexample :
    "★a\nb[2]".data = '★' :: ("a\nb".data ++ '[' :: ("2".data ++ ']' :: [])) ∧
    isNumLit "2".data = true ∧
    (']' : Char) ∉ ([] : List Char) ∧
    strip ("a\nb".data.takeWhile (fun c => c != '[')) = "a\nb".data ∧
    processPart 0 "★a\nb[2]".data = [] := by decide

/-- C6 (amended): a marker token with no trailing bracketed numeric
literal and no interior newline yields one usage entry whose item name is
the whole token text after the marker, trimmed, with quantity and unit
absent and the original token as memo; if that trimmed text is empty the
token is discarded. -/
theorem c6_fallback_token (cid : Nat) (p rest : List Char)
    (hp : p = '★' :: rest)
    (hstrip : strip p = p)
    (hnostruct : ¬ ∃ pre num tail, rest = pre ++ '[' :: (num ++ ']' :: tail) ∧
      isNumLit num = true ∧ ']' ∉ tail)
    (hnl : '\n' ∉ strip rest) :
    processPart cid p =
      if strip rest = [] then []
      else [{ case_id := cid, free_item_name := strip rest, quantity := none,
              unit := none, memo := p }] := by
  have hm : matchStructured rest = none := by
    cases h : matchStructured rest with
    | none => rfl
    | some pnt =>
      obtain ⟨pre, num, tail⟩ := pnt
      obtain ⟨hr, hn, ht, -⟩ := matchStructured_sound h
      exact absurd ⟨pre, num, tail, hr, hn, ht⟩ hnostruct
  subst hp
  unfold processPart
  rw [hstrip]
  simp only [hm, reduceIte]
  rw [if_neg hnl]

/-- Witness for C6: the spec example `★消毒`. -/
theorem c6_fallback_token_witness :
    processPart 4 "★消毒".data =
      (if strip "消毒".data = [] then []
       else [{ case_id := 4, free_item_name := strip "消毒".data, quantity := none,
               unit := none, memo := "★消毒".data }]) :=
  c6_fallback_token 4 "★消毒".data "消毒".data (by decide) (by decide)
    (no_lbrack_no_decomp (by decide)) (by decide)

/-- C6 counterexample: the token `★a\nb` has no bracket at all, so claim
C6 as stated demands one fallback usage entry with item name `a\nb`
(non-empty once trimmed); the code emits nothing, because `.` in the
Python fallback pattern does not match the interior newline. -/
theorem c6_counterexample :
    ('[' ∉ "★a\nb".data) ∧ strip "a\nb".data = "a\nb".data ∧
    processPart 0 "★a\nb".data = [] := by decide

/-! ### parse_int_safe support -/

theorem firstDigitRun_of_decomp :
    ∀ (a run b : List Char), (∀ c ∈ a, c.isDigit = false) → run ≠ [] →
      (∀ c ∈ run, c.isDigit = true) →
      (∀ c, b.head? = some c → c.isDigit = false) →
      firstDigitRun (a ++ run ++ b) = some run := by
  intro a
  induction a with
  | nil =>
    intro run b _ hne hrun hb
    cases run with
    | nil => exact absurd rfl hne
    | cons r rs =>
      have hr : r.isDigit = true := hrun r (List.mem_cons_self r rs)
      have htw := takeWhile_all_append (r :: rs) b hrun
      rw [List.cons_append] at htw
      have hbt : b.takeWhile Char.isDigit = [] := by
        cases b with
        | nil => rfl
        | cons x xs =>
          have hx : x.isDigit = false := hb x rfl
          simp [List.takeWhile_cons, hx]
      simp only [List.nil_append, List.cons_append, firstDigitRun, hr, if_true]
      show some (List.takeWhile Char.isDigit (r :: (rs ++ b))) = some (r :: rs)
      rw [htw, hbt]
      simp
  | cons x a2 ih =>
    intro run b ha hne hrun hb
    have hx : x.isDigit = false := ha x (List.mem_cons_self x a2)
    simp only [List.cons_append, firstDigitRun, hx]
    exact ih run b (fun c hc => ha c (List.mem_cons_of_mem x hc)) hne hrun hb

theorem firstDigitRun_none :
    ∀ {l : List Char}, (∀ c ∈ l, c.isDigit = false) → firstDigitRun l = none := by
  intro l
  induction l with
  | nil => intro _; rfl
  | cons x xs ih =>
    intro h
    have hx : x.isDigit = false := h x (List.mem_cons_self x xs)
    simp only [firstDigitRun, hx, Bool.false_eq_true, if_false]
    exact ih (fun c hc => h c (List.mem_cons_of_mem x hc))

/-- C8: the lenient integer extractor is total (it is a Lean function on
all inputs and returns, never raises): a missing cell or whitespace-only
string yields absent; otherwise the first maximal run of decimal digits,
wherever it sits in the string, is the integer result; with no digit run
the result is absent; `約20歳` yields `20`. -/
theorem c8_parse_int_safe :
    parse_int_safe none = none ∧
    (∀ v, strip v = [] → parse_int_safe (some v) = none) ∧
    (∀ v a run b, strip v = a ++ run ++ b →
      (∀ c ∈ a, c.isDigit = false) → run ≠ [] →
      (∀ c ∈ run, c.isDigit = true) →
      (∀ c, b.head? = some c → c.isDigit = false) →
      parse_int_safe (some v) = some (natOfDigits run)) ∧
    (∀ v, (∀ c ∈ v, c.isDigit = false) → parse_int_safe (some v) = none) ∧
    parse_int_safe (some "約20歳".data) = some 20 ∧
    parse_int_safe (some "".data) = none ∧
    parse_int_safe (some "不明".data) = none := by
  refine ⟨rfl, ?_, ?_, ?_, by decide, by decide, by decide⟩
  · intro v hv
    simp [parse_int_safe, hv]
  · intro v a run b hsv ha hne hrun hb
    have hnil : strip v ≠ [] := by
      rw [hsv]
      intro h
      rcases List.append_eq_nil.1 h with ⟨h1, -⟩
      rcases List.append_eq_nil.1 h1 with ⟨-, h2⟩
      exact hne h2
    show (if strip v = [] then none
      else match firstDigitRun (strip v) with
        | none => none
        | some run => some (natOfDigits run)) = some (natOfDigits run)
    rw [if_neg hnil, hsv]
    simp only [firstDigitRun_of_decomp a run b ha hne hrun hb]
  · intro v hv
    by_cases hnil : strip v = []
    · simp [parse_int_safe, hnil]
    · have hall : ∀ c ∈ strip v, c.isDigit = false := fun c hc => hv c (mem_strip hc)
      simp only [parse_int_safe, hnil, if_false, firstDigitRun_none hall]

/-- Witness for C8: the decomposition of `約20歳` around its digit run. -/
theorem c8_parse_int_safe_witness :
    parse_int_safe (some "約20歳".data) = some (natOfDigits "20".data) :=
  c8_parse_int_safe.2.2.1 "約20歳".data "約".data "20".data "歳".data
    (by decide) (by decide) (by decide) (by decide) (by decide)

/-! ### Import-abort support -/

theorem coerceRows_error_of_mem {dp : List Char → Option DateVal}
    {raw : RawRow} {e : List Char} :
    ∀ {rows : List RawRow}, raw ∈ rows → coerceRow dp raw = Except.error e →
      ∃ e2, coerceRows dp rows = Except.error e2 := by
  intro rows
  induction rows with
  | nil => intro h _; cases h
  | cons r rest ih =>
    intro hmem he
    rcases List.mem_cons.1 hmem with rfl | hm
    · exact ⟨e, by simp only [coerceRows, he]⟩
    · cases hr : coerceRow dp r with
      | error e3 => exact ⟨e3, by simp only [coerceRows, hr]⟩
      | ok cr =>
        obtain ⟨e2, h2⟩ := ih hm he
        exact ⟨e2, by simp only [coerceRows, hr, h2]⟩

theorem import_error_unchanged {dp : List Char → Option DateVal}
    {rows : List RawRow} {st : Store} {e : List Char}
    (h : import_csv dp rows st = Except.error e) :
    runImport dp rows st = st := by
  unfold runImport
  rw [h]

theorem build_error_of_rows_error {dp : List Char → Option DateVal}
    {rows : List RawRow} {e : List Char}
    (h : coerceRows dp rows = Except.error e) :
    build_surg_cases dp rows = Except.error e := by
  simp only [build_surg_cases, h]

/-- C7 (amended): the strict date coercer yields absent for a missing or
whitespace-only cell; a non-empty string the date parser rejects raises a
ValidationError whose message names the offending raw value (but not the
row it came from), and any batch containing such a row aborts with the
store unchanged. -/
theorem c7_strict_date (dp : List Char → Option DateVal) :
    to_iso_date dp none = Except.ok none ∧
    (∀ v, strip v = [] → to_iso_date dp (some v) = Except.ok none) ∧
    (∀ v, strip v ≠ [] → dp (strip v) = none →
      to_iso_date dp (some v) = Except.error (dateErrMsg (strip v))) ∧
    (∀ rows st raw v, raw ∈ rows → raw.cell_surg_date = some v →
      strip v ≠ [] → dp (strip v) = none →
      (∃ e, import_csv dp rows st = Except.error e) ∧
      runImport dp rows st = st) := by
  have hdate : ∀ v, strip v ≠ [] → dp (strip v) = none →
      to_iso_date dp (some v) = Except.error (dateErrMsg (strip v)) := by
    intro v hne hdp
    simp only [to_iso_date, hne, if_false, hdp]
  refine ⟨rfl, ?_, hdate, ?_⟩
  · intro v hv
    simp [to_iso_date, hv]
  · intro rows st raw v hmem hcell hne hdp
    have herr : coerceRow dp raw = Except.error (dateErrMsg (strip v)) := by
      simp only [coerceRow, hcell, hdate v hne hdp]
    obtain ⟨e2, h2⟩ := coerceRows_error_of_mem hmem herr
    have h3 : import_csv dp rows st = Except.error e2 := by
      simp only [import_csv, build_error_of_rows_error h2]
    exact ⟨⟨e2, h3⟩, import_error_unchanged h3⟩

/-- Witness for C7: the spec example `令和なんとか年` aborts a batch and
leaves the store unchanged. -/
theorem c7_strict_date_witness :
    runImport dp1 rowsBadLast st0 = st0 :=
  ((c7_strict_date dp1).2.2.2 rowsBadLast st0 rawBad "令和なんとか年".data
    (by decide) (by decide) (by decide) (by decide)).2

/-- C7 counterexample: the same unparseable date value, placed in row 1
of one batch and in row 0 of another, surfaces the byte-identical
ValidationError.  The error names the offending raw value only; it
cannot name the row it came from, contrary to the claim. -/
theorem c7_counterexample :
    import_csv dp1 rowsBadLast st0 = Except.error (dateErrMsg "令和なんとか年".data) ∧
    import_csv dp1 rowsBadFirst st0 = Except.error (dateErrMsg "令和なんとか年".data) ∧
    rowsBadLast ≠ rowsBadFirst := by
  refine ⟨rfl, rfl, by decide⟩

/-- C9: the decoder rejects an empty buffer, otherwise tries CP932, then
UTF-8-SIG, then UTF-8, uses the first encoding that decodes without
error, and fails with a decode error when none succeeds. -/
theorem c9_decoder (dec : Enc → List Nat → Option (List Char)) (content : List Nat) :
    (content = [] →
      read_csv_to_dataframe dec content = Except.error "ファイルが空です。".data) ∧
    (∀ t, content ≠ [] → dec Enc.cp932 content = some t →
      read_csv_to_dataframe dec content = Except.ok t) ∧
    (∀ t, content ≠ [] → dec Enc.cp932 content = none →
      dec Enc.utf8sig content = some t →
      read_csv_to_dataframe dec content = Except.ok t) ∧
    (∀ t, content ≠ [] → dec Enc.cp932 content = none →
      dec Enc.utf8sig content = none → dec Enc.utf8 content = some t →
      read_csv_to_dataframe dec content = Except.ok t) ∧
    (content ≠ [] → dec Enc.cp932 content = none → dec Enc.utf8sig content = none →
      dec Enc.utf8 content = none →
      read_csv_to_dataframe dec content =
        Except.error "CSV の文字コードを判別できませんでした".data) := by
  refine ⟨?_, ?_, ?_, ?_, ?_⟩
  · intro h
    simp [read_csv_to_dataframe, h]
  · intro t h h1
    simp only [read_csv_to_dataframe, h, if_false, h1]
  · intro t h h1 h2
    simp only [read_csv_to_dataframe, h, if_false, h1, h2]
  · intro t h h1 h2 h3
    simp only [read_csv_to_dataframe, h, if_false, h1, h2, h3]
  · intro h h1 h2 h3
    simp only [read_csv_to_dataframe, h, if_false, h1, h2, h3]

/-- Witness for C9: a buffer CP932 rejects and UTF-8-SIG accepts. -/
theorem c9_decoder_witness :
    read_csv_to_dataframe decFix [1, 2] = Except.ok "ヘッダ行".data :=
  (c9_decoder decFix [1, 2]).2.2.1 "ヘッダ行".data (by decide) (by decide) (by decide)

/-! ### Delimiter-splitting support -/

theorem splitDelims_no_delim :
    ∀ (text : List Char), ∀ part ∈ splitDelims text, ∀ c ∈ part, isDelim c = false := by
  intro text
  induction text with
  | nil =>
    intro part hp c hc
    simp only [splitDelims, List.mem_singleton] at hp
    subst hp
    cases hc
  | cons x xs ih =>
    intro part hp c hc
    by_cases hx : isDelim x = true
    · simp only [splitDelims, hx, if_true] at hp
      rcases List.mem_cons.1 hp with rfl | hp2
      · cases hc
      · exact ih part hp2 c hc
    · have hx2 : isDelim x = false := Bool.eq_false_iff.2 hx
      simp only [splitDelims, hx2, Bool.false_eq_true, if_false] at hp
      cases hsp : splitDelims xs with
      | nil =>
        rw [hsp] at hp
        simp only [List.mem_singleton] at hp
        subst hp
        rcases List.mem_cons.1 hc with rfl | hc2
        · exact hx2
        · cases hc2
      | cons p ps =>
        rw [hsp] at hp
        rcases List.mem_cons.1 hp with rfl | hp2
        · rcases List.mem_cons.1 hc with rfl | hc2
          · exact hx2
          · exact ih p (by rw [hsp]; exact List.mem_cons_self p ps) c hc2
        · exact ih part (by rw [hsp]; exact List.mem_cons_of_mem p hp2) c hc

theorem stripToOption_some {l t : List Char} (h : stripToOption l = some t) :
    t = strip l := by
  unfold stripToOption at h
  cases hs : strip l with
  | nil => rw [hs] at h; cases h
  | cons u us =>
    rw [hs] at h
    injection h with h2
    exact h2.symm

theorem processPart_chars (cid : Nat) (s : List Char) :
    ∀ u ∈ processPart cid s,
      (∀ c ∈ u.memo, c ∈ s) ∧ (∀ c ∈ u.free_item_name, c ∈ s) ∧
      (∀ t, u.unit = some t → ∀ c ∈ t, c ∈ s) := by
  intro u hu
  unfold processPart at hu
  cases hs : strip s with
  | nil => rw [hs] at hu; cases hu
  | cons c0 rest =>
    have hmem : ∀ c, c ∈ c0 :: rest → c ∈ s := by
      intro c hc
      exact mem_strip (hs ▸ hc)
    simp only [hs] at hu
    by_cases hc0 : c0 = '★'
    · rw [if_pos hc0] at hu
      cases hms : matchStructured rest with
      | some pnt =>
        obtain ⟨pre, num, tail⟩ := pnt
        simp only [hms] at hu
        obtain ⟨hrest, -, -, -⟩ := matchStructured_sound hms
        have hpre : ∀ c, c ∈ pre → c ∈ s := by
          intro c hc
          apply hmem
          exact List.mem_cons_of_mem c0 (by rw [hrest]; exact List.mem_append_left _ hc)
        have htail : ∀ c, c ∈ tail → c ∈ s := by
          intro c hc
          apply hmem
          refine List.mem_cons_of_mem c0 ?_
          rw [hrest]
          refine List.mem_append_right _ ?_
          exact List.mem_cons_of_mem _ (List.mem_append_right _ (List.mem_cons_of_mem _ hc))
        by_cases hitem : strip ((strip pre).takeWhile (fun c2 => c2 != '[')) = []
        · rw [if_pos hitem] at hu
          cases hu
        · rw [if_neg hitem] at hu
          rcases List.mem_cons.1 hu with rfl | hu2
          · refine ⟨?_, ?_, ?_⟩
            · intro c hc
              exact hmem c (hc0 ▸ hc)
            · intro c hc
              have h1 : c ∈ (strip pre).takeWhile (fun c2 => c2 != '[') := mem_strip hc
              have h2 : c ∈ strip pre := (List.takeWhile_sublist _).mem h1
              exact hpre c (mem_strip h2)
            · intro t ht c hc
              have h1 : t = strip tail := stripToOption_some ht
              exact htail c (mem_strip (h1 ▸ hc))
          · cases hu2
      | none =>
        simp only [hms] at hu
        by_cases hnl : '\n' ∈ strip rest
        · rw [if_pos hnl] at hu
          cases hu
        · rw [if_neg hnl] at hu
          by_cases hsr : strip rest = []
          · rw [if_pos hsr] at hu
            cases hu
          · rw [if_neg hsr] at hu
            rcases List.mem_cons.1 hu with rfl | hu2
            · refine ⟨?_, ?_, ?_⟩
              · intro c hc
                exact hmem c (hc0 ▸ hc)
              · intro c hc
                exact hmem c (List.mem_cons_of_mem c0 (mem_strip hc))
              · intro t ht
                cases ht
            · cases hu2
    · rw [if_neg hc0] at hu
      cases hu

/-- C10 (amended): the remarks string is split on the delimiter
characters (comma, ideographic comma, full-width comma) before any marker
or bracket parsing, so no segment — and hence no emitted entry's memo,
item name or unit — contains a delimiter character.  A bracket group
containing a delimiter is thereby severed across two tokens, though the
severed token may still match the structured pattern through an earlier
intact bracket group (see the counterexample below). -/
theorem c10_delims (cid : Nat) (remarks : Option (List Char)) :
    (∀ text, remarks = some text →
      ∀ part ∈ splitDelims text, ∀ c ∈ part, isDelim c = false) ∧
    (∀ u ∈ parse_usage_from_remarks cid remarks,
      (∀ c ∈ u.memo, isDelim c = false) ∧
      (∀ c ∈ u.free_item_name, isDelim c = false) ∧
      (∀ t, u.unit = some t → ∀ c ∈ t, isDelim c = false)) := by
  constructor
  · intro text _ part hp c hc
    exact splitDelims_no_delim text part hp c hc
  · intro u hu
    cases remarks with
    | none => cases hu
    | some text =>
      obtain ⟨part, hpart, hu2⟩ := List.mem_flatMap.1 hu
      obtain ⟨hm, hi, hun⟩ := processPart_chars cid part u hu2
      have hnd := splitDelims_no_delim text part hpart
      exact ⟨fun c hc => hnd c (hm c hc), fun c hc => hnd c (hi c hc),
        fun t ht c hc => hnd c (hun t ht c hc)⟩

/-- Witness for C10: the emitted entries of `★a[1,5]個`, whose sole
bracket group is severed by an interior comma, carry no delimiter
character. -/
theorem c10_delims_witness :
    (parse_usage_from_remarks 6 (some "★a[1,5]個".data)).all
      (fun u => u.memo.all (fun c => !isDelim c) &&
        u.free_item_name.all (fun c => !isDelim c)) = true := by
  rw [List.all_eq_true]
  intro u hu
  obtain ⟨hm, hi, -⟩ := (c10_delims 6 (some "★a[1,5]個".data)).2 u hu
  rw [Bool.and_eq_true, List.all_eq_true, List.all_eq_true]
  constructor
  · intro c hc
    simp [hm c hc]
  · intro c hc
    simp [hi c hc]

/-- C10 counterexample: in the remarks `★a[2]x[1,5]y` the bracket group
`[1,5]` is severed by the comma into the tokens `★a[2]x[1` and `5]y`,
yet the severed token still matches the structured pattern through its
earlier intact group `[2]` — the tokenizer emits item `a`, quantity 2,
unit `x[1` — refuting the claim's clause that such a token can never
match the structured pattern. -/
theorem c10_counterexample :
    splitDelims "★a[2]x[1,5]y".data = ["★a[2]x[1".data, "5]y".data] ∧
    matchStructured "a[2]x[1".data = some ("a".data, "2".data, "x[1".data) ∧
    parse_usage_from_remarks 0 (some "★a[2]x[1,5]y".data) =
      [{ case_id := 0, free_item_name := "a".data,
         quantity := some (Quantity.qint 2), unit := some "x[1".data,
         memo := "★a[2]x[1".data }] := by decide

/-! ### Dedup support -/

theorem dedupGo_spec :
    ∀ (l : List CaseRow) (seen : List (List Char)) (r : CaseRow), r ∈ dedupGo seen l →
      r.ext_case_id ∉ seen ∧
      ∃ pre post, l = pre ++ r :: post ∧ ∀ x ∈ pre, x.ext_case_id ≠ r.ext_case_id := by
  intro l
  induction l with
  | nil =>
    intro seen r h
    cases h
  | cons h0 t ih =>
    intro seen r hr
    by_cases hs : h0.ext_case_id ∈ seen
    · simp only [dedupGo] at hr
      rw [if_pos hs] at hr
      obtain ⟨h1, pre, post, h2, h3⟩ := ih seen r hr
      subst h2
      refine ⟨h1, h0 :: pre, post, rfl, ?_⟩
      intro x hx
      rcases List.mem_cons.1 hx with rfl | hx2
      · intro he
        exact h1 (he ▸ hs)
      · exact h3 x hx2
    · simp only [dedupGo] at hr
      rw [if_neg hs] at hr
      rcases List.mem_cons.1 hr with rfl | hr2
      · refine ⟨hs, [], t, rfl, ?_⟩
        intro x hx
        cases hx
      · obtain ⟨h1, pre, post, h2, h3⟩ := ih (h0.ext_case_id :: seen) r hr2
        have h1b : r.ext_case_id ∉ seen := fun hm => h1 (List.mem_cons_of_mem _ hm)
        have hne : h0.ext_case_id ≠ r.ext_case_id := by
          intro he
          apply h1
          rw [← he]
          exact List.mem_cons_self _ _
        subst h2
        refine ⟨h1b, h0 :: pre, post, rfl, ?_⟩
        intro x hx
        rcases List.mem_cons.1 hx with rfl | hx2
        · exact hne
        · exact h3 x hx2

theorem dedupGo_pairwise :
    ∀ (l : List CaseRow) (seen : List (List Char)),
      (dedupGo seen l).Pairwise (fun a b => a.ext_case_id ≠ b.ext_case_id) := by
  intro l
  induction l with
  | nil =>
    intro seen
    exact List.Pairwise.nil
  | cons h0 t ih =>
    intro seen
    by_cases hs : h0.ext_case_id ∈ seen
    · simp only [dedupGo]
      rw [if_pos hs]
      exact ih seen
    · simp only [dedupGo]
      rw [if_neg hs]
      refine List.Pairwise.cons ?_ (ih _)
      intro y hy
      have h1 := (dedupGo_spec t (h0.ext_case_id :: seen) y hy).1
      intro he
      apply h1
      rw [← he]
      exact List.mem_cons_self _ _

theorem dedupGo_covers :
    ∀ (l : List CaseRow) (seen : List (List Char)) (r : CaseRow), r ∈ l →
      r.ext_case_id ∉ seen →
      ∃ r2 ∈ dedupGo seen l, r2.ext_case_id = r.ext_case_id := by
  intro l
  induction l with
  | nil =>
    intro seen r h _
    cases h
  | cons h0 t ih =>
    intro seen r hr hn
    by_cases hs : h0.ext_case_id ∈ seen
    · simp only [dedupGo]
      rw [if_pos hs]
      rcases List.mem_cons.1 hr with rfl | hr2
      · exact absurd hs hn
      · exact ih seen r hr2 hn
    · simp only [dedupGo]
      rw [if_neg hs]
      rcases List.mem_cons.1 hr with rfl | hr2
      · exact ⟨r, List.mem_cons_self _ _, rfl⟩
      · by_cases he : r.ext_case_id = h0.ext_case_id
        · exact ⟨h0, List.mem_cons_self _ _, he.symm⟩
        · obtain ⟨r2, h2, h3⟩ := ih (h0.ext_case_id :: seen) r hr2 (by
            intro hm
            rcases List.mem_cons.1 hm with hm2 | hm3
            · exact he hm2
            · exact hn hm3)
          exact ⟨r2, List.mem_cons_of_mem _ h2, h3⟩

theorem filter_eq_append_split {α : Type} (q : α → Bool) :
    ∀ (l pre1 post1 : List α) (r : α), l.filter q = pre1 ++ r :: post1 →
      ∃ pre post, l = pre ++ r :: post ∧
        ∀ x ∈ pre, q x = false ∨ x ∈ pre1 := by
  intro l
  induction l with
  | nil =>
    intro pre1 post1 r h
    rw [List.filter_nil] at h
    exact absurd h.symm (List.append_ne_nil_of_right_ne_nil _ (by simp))
  | cons x xs ih =>
    intro pre1 post1 r h
    by_cases hx : q x = true
    · rw [List.filter_cons_of_pos hx] at h
      cases pre1 with
      | nil =>
        rw [List.nil_append] at h
        have hx2 : x = r := (List.cons.injEq .. ▸ h).1
        subst hx2
        refine ⟨[], xs, rfl, ?_⟩
        intro y hy
        cases hy
      | cons p1 ps1 =>
        rw [List.cons_append] at h
        have hx2 : x = p1 := (List.cons.injEq .. ▸ h).1
        have hrest : xs.filter q = ps1 ++ r :: post1 := (List.cons.injEq .. ▸ h).2
        obtain ⟨pre, post, h2, h3⟩ := ih ps1 post1 r hrest
        refine ⟨x :: pre, post, by rw [h2, List.cons_append], ?_⟩
        intro y hy
        rcases List.mem_cons.1 hy with rfl | hy2
        · right
          rw [hx2]
          exact List.mem_cons_self _ _
        · rcases h3 y hy2 with hq | hmem
          · exact Or.inl hq
          · exact Or.inr (List.mem_cons_of_mem _ hmem)
    · have hx2 : ¬ (q x = true) := hx
      rw [List.filter_cons_of_neg hx2] at h
      obtain ⟨pre, post, h2, h3⟩ := ih pre1 post1 r h
      refine ⟨x :: pre, post, by rw [h2, List.cons_append], ?_⟩
      intro y hy
      rcases List.mem_cons.1 hy with rfl | hy2
      · exact Or.inl (Bool.eq_false_iff.2 hx)
      · exact h3 y hy2

/-- C5: the case builder drops every row whose external id is empty after
trimming, and on duplicate external ids within a batch keeps exactly the
first occurrence in source row order: the output has no empty ids and
pairwise-distinct ids, every output row is a coerced input row none of
whose predecessors shares its id, and every surviving id is represented. -/
theorem c5_dedup (dp : List Char → Option DateVal) (rows : List RawRow)
    (L cs : List CaseRow)
    (hL : coerceRows dp rows = Except.ok L)
    (hcs : build_surg_cases dp rows = Except.ok cs) :
    (∀ r ∈ cs, r.ext_case_id ≠ []) ∧
    cs.Pairwise (fun a b => a.ext_case_id ≠ b.ext_case_id) ∧
    (∀ r ∈ cs, ∃ pre post, L = pre ++ r :: post ∧
      ∀ x ∈ pre, x.ext_case_id ≠ r.ext_case_id) ∧
    (∀ r2 ∈ L, r2.ext_case_id ≠ [] → ∃ r ∈ cs, r.ext_case_id = r2.ext_case_id) := by
  have hcs2 : cs = dedupFirst (L.filter (fun r => r.ext_case_id != [])) := by
    unfold build_surg_cases at hcs
    rw [hL] at hcs
    injection hcs with h2
    exact h2.symm
  have hmemfil : ∀ r ∈ cs, r ∈ L.filter (fun r2 => r2.ext_case_id != []) := by
    intro r hr
    rw [hcs2] at hr
    obtain ⟨-, pre, post, h2, -⟩ := dedupGo_spec _ [] r hr
    rw [h2]
    exact List.mem_append_right _ (List.mem_cons_self _ _)
  refine ⟨?_, ?_, ?_, ?_⟩
  · intro r hr
    have h2 := List.mem_filter.1 (hmemfil r hr)
    exact bne_iff_ne.1 h2.2
  · rw [hcs2]
    exact dedupGo_pairwise _ []
  · intro r hr
    have hrne : r.ext_case_id ≠ [] := by
      have h2 := List.mem_filter.1 (hmemfil r hr)
      exact bne_iff_ne.1 h2.2
    rw [hcs2] at hr
    obtain ⟨-, pre1, post1, h2, h3⟩ := dedupGo_spec _ [] r hr
    obtain ⟨pre, post, h4, h5⟩ := filter_eq_append_split _ L pre1 post1 r h2
    refine ⟨pre, post, h4, ?_⟩
    intro x hx
    rcases h5 x hx with hq | hmem
    · have : x.ext_case_id = [] := by
        by_contra hne
        rw [bne_iff_ne.2 hne] at hq
        cases hq
      rw [this]
      exact fun he => hrne he.symm
    · exact h3 x hmem
  · intro r2 hr2 hne
    have hfil : r2 ∈ L.filter (fun r => r.ext_case_id != []) :=
      List.mem_filter.2 ⟨hr2, bne_iff_ne.2 hne⟩
    obtain ⟨r, h2, h3⟩ := dedupGo_covers _ [] r2 hfil (by intro h; cases h)
    rw [hcs2]
    exact ⟨r, h2, h3⟩

/-- Witness for C5: on the fixture batch, whose second row repeats the
id A1 with different field values, the builder output has pairwise
distinct external ids. -/
theorem c5_dedup_witness :
    csGood.Pairwise (fun a b => a.ext_case_id ≠ b.ext_case_id) :=
  (c5_dedup dp1 rowsGood coercedGood csGood rfl rfl).2.1

/-! ### Reconciliation-engine support -/

theorem parse_usage_cid (cid : Nat) (remarks : Option (List Char)) :
    ∀ u ∈ parse_usage_from_remarks cid remarks, u.case_id = cid := by
  intro u hu
  cases remarks with
  | none => cases hu
  | some text =>
    obtain ⟨part, -, hu2⟩ := List.mem_flatMap.1 hu
    unfold processPart at hu2
    cases hs : strip part with
    | nil =>
      rw [hs] at hu2
      cases hu2
    | cons c0 rest =>
      simp only [hs] at hu2
      by_cases hc0 : c0 = '★'
      · rw [if_pos hc0] at hu2
        cases hms : matchStructured rest with
        | some pnt =>
          obtain ⟨pre, num, tail⟩ := pnt
          simp only [hms] at hu2
          by_cases hitem : strip ((strip pre).takeWhile (fun c2 => c2 != '[')) = []
          · rw [if_pos hitem] at hu2
            cases hu2
          · rw [if_neg hitem] at hu2
            rcases List.mem_cons.1 hu2 with rfl | h2
            · rfl
            · cases h2
        | none =>
          simp only [hms] at hu2
          by_cases hnl : '\n' ∈ strip rest
          · rw [if_pos hnl] at hu2
            cases hu2
          · rw [if_neg hnl] at hu2
            by_cases hsr : strip rest = []
            · rw [if_pos hsr] at hu2
              cases hu2
            · rw [if_neg hsr] at hu2
              rcases List.mem_cons.1 hu2 with rfl | h2
              · rfl
              · cases h2
      · rw [if_neg hc0] at hu2
        cases hu2

theorem filter_beq_of_bne (cid : Nat) :
    ∀ (l : List UsageRow),
      (l.filter (fun u => u.case_id != cid)).filter (fun u => u.case_id == cid) = [] := by
  intro l
  induction l with
  | nil => rfl
  | cons u us ih =>
    by_cases h : u.case_id = cid
    · rw [List.filter_cons_of_neg (by simp [h])]
      exact ih
    · rw [List.filter_cons_of_pos (by simp [h]),
        List.filter_cons_of_neg (by simp [h])]
      exact ih

theorem filter_beq_other {i cid : Nat} (hne : i ≠ cid) :
    ∀ (l : List UsageRow),
      (l.filter (fun u => u.case_id != cid)).filter (fun u => u.case_id == i) =
        l.filter (fun u => u.case_id == i) := by
  intro l
  induction l with
  | nil => rfl
  | cons u us ih =>
    by_cases h : u.case_id = cid
    · rw [List.filter_cons_of_neg (by simp [h]),
        List.filter_cons_of_neg (by simp [h]; exact fun he => hne he.symm)]
      exact ih
    · rw [List.filter_cons_of_pos (by simp [h])]
      by_cases h2 : u.case_id = i
      · rw [List.filter_cons_of_pos (by simp [h2]),
          List.filter_cons_of_pos (by simp [h2]), ih]
      · rw [List.filter_cons_of_neg (by simp [h2]),
          List.filter_cons_of_neg (by simp [h2])]
        exact ih

theorem filter_self_of_all {cid : Nat} {l : List UsageRow}
    (h : ∀ u ∈ l, u.case_id = cid) :
    l.filter (fun u => u.case_id == cid) = l :=
  List.filter_eq_self.2 (fun u hu => by simp [h u hu])

theorem filter_none_of_all {i cid : Nat} (hne : i ≠ cid) {l : List UsageRow}
    (h : ∀ u ∈ l, u.case_id = cid) :
    l.filter (fun u => u.case_id == i) = [] := by
  induction l with
  | nil => rfl
  | cons u us ih =>
    have hu : u.case_id = cid := h u (List.mem_cons_self u us)
    rw [List.filter_cons_of_neg (by simp [hu]; exact fun he => hne he.symm)]
    exact ih (fun x hx => h x (List.mem_cons_of_mem u hx))

theorem pairwise_id_inj :
    ∀ {l : List DbCase}, l.Pairwise (fun a b => a.case_id ≠ b.case_id) →
      ∀ a ∈ l, ∀ b ∈ l, a.case_id = b.case_id → a = b := by
  intro l
  induction l with
  | nil =>
    intro _ a ha
    cases ha
  | cons x xs ih =>
    intro hpw a ha b hb he
    rcases List.mem_cons.1 ha with rfl | ha2
    · rcases List.mem_cons.1 hb with rfl | hb2
      · rfl
      · exact absurd he (List.rel_of_pairwise_cons hpw hb2)
    · rcases List.mem_cons.1 hb with rfl | hb2
      · exact absurd he.symm (List.rel_of_pairwise_cons hpw ha2)
      · exact ih hpw.tail a ha2 b hb2 he

theorem find?_ext_map (e : List Char) (f : DbCase → DbCase)
    (hf : ∀ c, (f c).ext_case_id = c.ext_case_id) :
    ∀ (l : List DbCase), (l.map f).find? (fun c => c.ext_case_id == e) =
      (l.find? (fun c => c.ext_case_id == e)).map f := by
  intro l
  induction l with
  | nil => rfl
  | cons x xs ih =>
    by_cases hx : (x.ext_case_id == e) = true
    · have h1 : List.find? (fun c => c.ext_case_id == e) (f x :: List.map f xs) = some (f x) :=
        List.find?_cons_of_pos _ (by rw [hf]; exact hx)
      have h2 : List.find? (fun c => c.ext_case_id == e) (x :: xs) = some x :=
        List.find?_cons_of_pos _ hx
      rw [List.map_cons, h1, h2]
      rfl
    · have h1 : List.find? (fun c => c.ext_case_id == e) (f x :: List.map f xs) =
          List.find? (fun c => c.ext_case_id == e) (List.map f xs) :=
        List.find?_cons_of_neg _ (by rw [hf]; exact hx)
      have h2 : List.find? (fun c => c.ext_case_id == e) (x :: xs) =
          List.find? (fun c => c.ext_case_id == e) xs :=
        List.find?_cons_of_neg _ hx
      rw [List.map_cons, h1, h2]
      exact ih

theorem updateFields_ext (c : DbCase) (r : CaseRow) :
    (updateFields c r).ext_case_id = c.ext_case_id := rfl

theorem updateFields_id (c : DbCase) (r : CaseRow) :
    (updateFields c r).case_id = c.case_id := rfl

theorem importStep_usage (st : Store) (r : CaseRow) :
    (importStep st r).usage =
      st.usage.filter (fun u => u.case_id != assignedId st r) ++
        parse_usage_from_remarks (assignedId st r) (some r.remarks) := by
  unfold importStep assignedId
  cases hf : st.cases.find? (fun c => c.ext_case_id == r.ext_case_id) <;> simp [hf]

theorem importStep_cases (st : Store) (r : CaseRow) :
    (importStep st r).cases =
      (match st.cases.find? (fun c => c.ext_case_id == r.ext_case_id) with
       | some c =>
         st.cases.map (fun x => if x.case_id == c.case_id then updateFields x r else x)
       | none => st.cases ++ [mkCase st.nextId r]) := by
  unfold importStep
  cases hf : st.cases.find? (fun c => c.ext_case_id == r.ext_case_id) <;> simp [hf]

theorem usageOf_step_self (st : Store) (r : CaseRow) :
    usageOf (importStep st r) (assignedId st r) =
      parse_usage_from_remarks (assignedId st r) (some r.remarks) := by
  unfold usageOf
  rw [importStep_usage, List.filter_append, filter_beq_of_bne,
    filter_self_of_all (parse_usage_cid _ _), List.nil_append]

theorem usageOf_step_other (st : Store) (r : CaseRow) {i : Nat}
    (hne : i ≠ assignedId st r) :
    usageOf (importStep st r) i = usageOf st i := by
  unfold usageOf
  rw [importStep_usage, List.filter_append, filter_beq_other hne,
    filter_none_of_all hne (parse_usage_cid _ _), List.append_nil]

theorem lookupExtId_some {st : Store} {e : List Char} {i : Nat}
    (h : lookupExtId st e = some i) :
    ∃ c ∈ st.cases, c.ext_case_id = e ∧ c.case_id = i := by
  unfold lookupExtId at h
  cases hf : st.cases.find? (fun c => c.ext_case_id == e) with
  | none =>
    rw [hf] at h
    cases h
  | some c =>
    rw [hf] at h
    injection h with h2
    have hp := List.find?_some hf
    exact ⟨c, List.mem_of_find?_eq_some hf, beq_iff_eq.1 hp, h2⟩

theorem importStep_lookup_stable {st : Store} {r : CaseRow} {e : List Char} {i : Nat}
    (h : lookupExtId st e = some i) :
    lookupExtId (importStep st r) e = some i := by
  unfold lookupExtId at h ⊢
  rw [importStep_cases]
  cases hf : st.cases.find? (fun c => c.ext_case_id == r.ext_case_id) with
  | some c =>
    have hext : ∀ x : DbCase,
        ((fun x => if x.case_id == c.case_id then updateFields x r else x) x).ext_case_id =
          x.ext_case_id := by
      intro x
      by_cases hx : (x.case_id == c.case_id) = true
      · simp [hx, updateFields_ext]
      · simp [hx]
    rw [find?_ext_map e _ hext st.cases]
    cases hfe : st.cases.find? (fun c2 => c2.ext_case_id == e) with
    | none =>
      rw [hfe] at h
      cases h
    | some c2 =>
      rw [hfe] at h
      have h2 : c2.case_id = i := by simpa using h
      show some ((if (c2.case_id == c.case_id) = true then updateFields c2 r
        else c2).case_id) = some i
      by_cases hx : (c2.case_id == c.case_id) = true
      · rw [if_pos hx, updateFields_id, h2]
      · rw [if_neg hx, h2]
  | none =>
    rw [List.find?_append]
    cases hfe : st.cases.find? (fun c2 => c2.ext_case_id == e) with
    | none =>
      rw [hfe] at h
      cases h
    | some c2 =>
      rw [hfe] at h
      simpa [Option.or] using h

theorem importStep_lookup_self (st : Store) (r : CaseRow) :
    lookupExtId (importStep st r) r.ext_case_id = some (assignedId st r) := by
  unfold lookupExtId assignedId
  rw [importStep_cases]
  cases hf : st.cases.find? (fun c => c.ext_case_id == r.ext_case_id) with
  | some c =>
    have hext : ∀ x : DbCase,
        ((fun x => if x.case_id == c.case_id then updateFields x r else x) x).ext_case_id =
          x.ext_case_id := by
      intro x
      by_cases hx : (x.case_id == c.case_id) = true
      · simp [hx, updateFields_ext]
      · simp [hx]
    rw [find?_ext_map r.ext_case_id _ hext st.cases, hf]
    by_cases hx : (c.case_id == c.case_id) = true
    · simp [hx, updateFields_id]
    · exact absurd (beq_self_eq_true c.case_id) hx
  | none =>
    rw [List.find?_append, hf]
    have h2 : List.find? (fun c => c.ext_case_id == r.ext_case_id) [mkCase st.nextId r] =
        some (mkCase st.nextId r) :=
      List.find?_cons_of_pos _ (by simp [mkCase])
    simp [Option.or, h2, mkCase]

theorem importStep_wf {st : Store} (hwf : st.wf) (r : CaseRow) :
    (importStep st r).wf := by
  obtain ⟨hbound, hids, hexts⟩ := hwf
  unfold importStep
  cases hf : st.cases.find? (fun c => c.ext_case_id == r.ext_case_id) with
  | some c =>
    simp only []
    refine ⟨?_, ?_, ?_⟩
    · intro x hx
      obtain ⟨y, hy, hxy⟩ := List.mem_map.1 hx
      subst hxy
      by_cases hyc : (y.case_id == c.case_id) = true
      · simp only [hyc, if_true, updateFields_id]
        exact hbound y hy
      · simp only [hyc, Bool.false_eq_true, if_false]
        exact hbound y hy
    · rw [List.pairwise_map]
      refine hids.imp_of_mem ?_
      intro a b _ _ hab
      by_cases ha : (a.case_id == c.case_id) = true <;>
        by_cases hb : (b.case_id == c.case_id) = true <;>
          simp [ha, hb, updateFields_id, hab]
    · rw [List.pairwise_map]
      refine hexts.imp_of_mem ?_
      intro a b _ _ hab
      by_cases ha : (a.case_id == c.case_id) = true <;>
        by_cases hb : (b.case_id == c.case_id) = true <;>
          simp [ha, hb, updateFields_ext, hab]
  | none =>
    simp only []
    have hnotfound := List.find?_eq_none.1 hf
    refine ⟨?_, ?_, ?_⟩
    · intro x hx
      rcases List.mem_append.1 hx with hx2 | hx2
      · exact Nat.lt_trans (hbound x hx2) (Nat.lt_succ_self _)
      · rw [List.mem_singleton.1 hx2]
        exact Nat.lt_succ_self _
    · rw [List.pairwise_append]
      refine ⟨hids, List.pairwise_singleton _ _, ?_⟩
      intro a ha b hb
      rw [List.mem_singleton.1 hb]
      exact Nat.ne_of_lt (hbound a ha)
    · rw [List.pairwise_append]
      refine ⟨hexts, List.pairwise_singleton _ _, ?_⟩
      intro a ha b hb
      rw [List.mem_singleton.1 hb]
      intro he
      exact hnotfound a ha (by simp [mkCase] at he ⊢; exact he)

theorem assigned_ne_of_other {st : Store} (hwf : st.wf) {e : List Char} {i : Nat}
    {r : CaseRow} (h : lookupExtId st e = some i) (hne : e ≠ r.ext_case_id) :
    i ≠ assignedId st r := by
  obtain ⟨hbound, hids, -⟩ := hwf
  obtain ⟨c, hc, hcext, hcid⟩ := lookupExtId_some h
  unfold assignedId
  cases hf : st.cases.find? (fun c2 => c2.ext_case_id == r.ext_case_id) with
  | some c3 =>
    intro heq
    have hc3 : c3 ∈ st.cases := List.mem_of_find?_eq_some hf
    have hp3 := List.find?_some hf
    have hc3ext : c3.ext_case_id = r.ext_case_id := beq_iff_eq.1 hp3
    have : c = c3 := pairwise_id_inj hids c hc c3 hc3 (hcid.trans heq)
    apply hne
    rw [← hcext, this, hc3ext]
  | none =>
    have : i < st.nextId := hcid ▸ hbound c hc
    exact Nat.ne_of_lt this

theorem importLoop_spec :
    ∀ (batch : List CaseRow) (st : Store), st.wf →
      batch.Pairwise (fun a b => a.ext_case_id ≠ b.ext_case_id) →
      (batch.foldl importStep st).wf ∧
      (∀ e i, lookupExtId st e = some i →
        lookupExtId (batch.foldl importStep st) e = some i) ∧
      (∀ e i, lookupExtId st e = some i → (∀ r ∈ batch, r.ext_case_id ≠ e) →
        usageOf (batch.foldl importStep st) i = usageOf st i) ∧
      (∀ r ∈ batch,
        ∃ cid, lookupExtId (batch.foldl importStep st) r.ext_case_id = some cid ∧
          usageOf (batch.foldl importStep st) cid =
            parse_usage_from_remarks cid (some r.remarks)) := by
  intro batch
  induction batch with
  | nil =>
    intro st hwf _
    exact ⟨hwf, fun e i h => h, fun e i h _ => rfl, by
      intro r hr
      cases hr⟩
  | cons r bs ih =>
    intro st hwf hdist
    have hwf1 : (importStep st r).wf := importStep_wf hwf r
    have hhead : ∀ x ∈ bs, r.ext_case_id ≠ x.ext_case_id :=
      fun x hx => List.rel_of_pairwise_cons hdist hx
    obtain ⟨ihwf, ihstable, ihpreserve, ihbatch⟩ := ih (importStep st r) hwf1 hdist.tail
    have hfold : (r :: bs).foldl importStep st = bs.foldl importStep (importStep st r) := rfl
    rw [hfold]
    refine ⟨ihwf, ?_, ?_, ?_⟩
    · intro e i h
      exact ihstable e i (importStep_lookup_stable h)
    · intro e i h hall
      have hne : e ≠ r.ext_case_id := fun he => (hall r (List.mem_cons_self r bs)) he.symm
      have h2 : usageOf (importStep st r) i = usageOf st i :=
        usageOf_step_other st r (assigned_ne_of_other hwf h hne)
      have h3 := ihpreserve e i (importStep_lookup_stable h)
        (fun x hx => hall x (List.mem_cons_of_mem r hx))
      rw [h3, h2]
    · intro r2 hr2
      rcases List.mem_cons.1 hr2 with rfl | hr3
      · refine ⟨assignedId st r2, ihstable _ _ (importStep_lookup_self st r2), ?_⟩
        have h4 := ihpreserve r2.ext_case_id (assignedId st r2)
          (importStep_lookup_self st r2)
          (fun x hx he => (hhead x hx) he.symm)
        rw [h4, usageOf_step_self st r2]
      · exact ihbatch r2 hr3

theorem build_pairwise {dp : List Char → Option DateVal} {rows : List RawRow}
    {cs : List CaseRow} (hcs : build_surg_cases dp rows = Except.ok cs) :
    cs.Pairwise (fun a b => a.ext_case_id ≠ b.ext_case_id) := by
  unfold build_surg_cases at hcs
  cases hco : coerceRows dp rows with
  | error e =>
    rw [hco] at hcs
    cases hcs
  | ok L =>
    rw [hco] at hcs
    injection hcs with h2
    rw [← h2]
    exact dedupGo_pairwise _ []

theorem import_ok_foldl {dp : List Char → Option DateVal} {rows : List RawRow}
    {st st2 : Store} {cs : List CaseRow}
    (hcs : build_surg_cases dp rows = Except.ok cs)
    (hok : import_csv dp rows st = Except.ok st2) :
    st2 = cs.foldl importStep st := by
  unfold import_csv at hok
  rw [hcs] at hok
  injection hok with h2
  exact h2.symm

theorem st0_wf : st0.wf := by
  refine ⟨?_, ?_, ?_⟩
  · intro c hc
    cases hc
  · exact List.Pairwise.nil
  · exact List.Pairwise.nil

/-- C3: import is all-or-nothing per batch — if any pipeline step fails,
the transaction rolls back and the store is exactly the pre-import store;
if it succeeds, every built case row (and no other) was applied, with no
per-row independent commit. -/
theorem c3_all_or_nothing (dp : List Char → Option DateVal) (rows : List RawRow)
    (st : Store) :
    ((∃ e, import_csv dp rows st = Except.error e) → runImport dp rows st = st) ∧
    (∀ cs st2, build_surg_cases dp rows = Except.ok cs →
      import_csv dp rows st = Except.ok st2 → st2 = cs.foldl importStep st) := by
  constructor
  · rintro ⟨e, h⟩
    exact import_error_unchanged h
  · intro cs st2 hb hi
    exact import_ok_foldl hb hi

/-- Witness for C3: a batch with an unparseable date leaves the store
untouched. -/
theorem c3_all_or_nothing_witness :
    runImport dp1 rowsBadFirst st0 = st0 :=
  (c3_all_or_nothing dp1 rowsBadFirst st0).1 ⟨dateErrMsg "令和なんとか年".data, rfl⟩

/-- C2: after a committed import, every case touched by the batch owns
exactly the usage rows tokenized from that case's remarks in this batch —
the previously persisted usage set is fully replaced, with no merge. -/
theorem c2_full_replace (dp : List Char → Option DateVal) (rows : List RawRow)
    (st st2 : Store) (cs : List CaseRow)
    (hwf : st.wf)
    (hcs : build_surg_cases dp rows = Except.ok cs)
    (hok : import_csv dp rows st = Except.ok st2) :
    ∀ r ∈ cs, ∃ cid, lookupExtId st2 r.ext_case_id = some cid ∧
      usageOf st2 cid = parse_usage_from_remarks cid (some r.remarks) := by
  have hdist := build_pairwise hcs
  have hst2 := import_ok_foldl hcs hok
  obtain ⟨-, -, -, hbatch⟩ := importLoop_spec cs st hwf hdist
  rw [hst2]
  exact hbatch

/-- Witness for C2: after importing the good batch into the empty store,
case A1 owns exactly the tokenization of its remarks. -/
theorem c2_full_replace_witness :
    lookupExtId stG1 "A1".data = some 1 ∧
    usageOf stG1 1 = parse_usage_from_remarks 1 (some "★ガーゼ[2]枚,★消毒".data) := by
  obtain ⟨cid, h1, h2⟩ :=
    c2_full_replace dp1 rowsGood st0 stG1 csGood st0_wf rfl rfl rGoodA (by decide)
  have h3 : cid = 1 := by
    have h4 : lookupExtId stG1 rGoodA.ext_case_id = some 1 := by decide
    exact Option.some.inj (h1.symm.trans h4)
  subst h3
  exact ⟨h1, h2⟩

/-- C4: importing the same batch twice is idempotent — the second import
leaves every touched case's internal id unchanged and its usage set
identical to the state after the first import. -/
theorem c4_idempotent (dp : List Char → Option DateVal) (rows : List RawRow)
    (sta st1 st2 : Store) (cs : List CaseRow)
    (hwf : sta.wf)
    (hcs : build_surg_cases dp rows = Except.ok cs)
    (h1 : import_csv dp rows sta = Except.ok st1)
    (h2 : import_csv dp rows st1 = Except.ok st2) :
    ∀ r ∈ cs, lookupExtId st2 r.ext_case_id = lookupExtId st1 r.ext_case_id ∧
      ∀ cid, lookupExtId st1 r.ext_case_id = some cid →
        usageOf st2 cid = usageOf st1 cid := by
  have hdist := build_pairwise hcs
  have hst1 := import_ok_foldl hcs h1
  have hst2 := import_ok_foldl hcs h2
  have hwf1 : st1.wf := by
    rw [hst1]
    exact (importLoop_spec cs sta hwf hdist).1
  obtain ⟨-, hstable2, -, hbatch2⟩ := importLoop_spec cs st1 hwf1 hdist
  obtain ⟨-, -, -, hbatch1⟩ := importLoop_spec cs sta hwf hdist
  intro r hr
  obtain ⟨cid1, hl1, hu1⟩ := hbatch1 r hr
  rw [← hst1] at hl1 hu1
  have hs2 : lookupExtId st2 r.ext_case_id = some cid1 := by
    rw [hst2]
    exact hstable2 _ _ hl1
  constructor
  · rw [hs2, hl1]
  · intro cid hcid
    have hceq : cid1 = cid := Option.some.inj (hl1.symm.trans hcid)
    subst hceq
    obtain ⟨cid2, hl2, hu2⟩ := hbatch2 r hr
    rw [← hst2] at hl2 hu2
    have hc21 : cid2 = cid1 := Option.some.inj (hl2.symm.trans hs2)
    subst hc21
    rw [hu2, hu1]

/-- Witness for C4: importing the good batch twice into the empty store
leaves case A1's id and usage set unchanged. -/
theorem c4_idempotent_witness :
    lookupExtId stG2 "A1".data = lookupExtId stG1 "A1".data ∧
    usageOf stG2 1 = usageOf stG1 1 := by
  obtain ⟨ha, hb⟩ :=
    c4_idempotent dp1 rowsGood st0 stG1 stG2 csGood st0_wf rfl rfl rfl rGoodA (by decide)
  exact ⟨ha, hb 1 (by decide)⟩
